import Mathlib

/-!
Verification of the layered caching subsystem of the Jassistant repository
(backend/cache_manager.py): the bounded LRU memory tier (`LRUCache`),
the persistent disk tier with age-based expiry (`FileCache`), the
read-through orchestrator (`QueryCache`), and the composition root
(`CacheManager`).

Modelling conventions:
- Python runtime values are modelled by `PyVal`, which has a distinguished
  `PyVal.none` constructor mirroring Python `None`; a `get` that misses
  returns `PyVal.none`, exactly as the Python code returns `None`.
- A Python `OrderedDict` is modelled as an association list ordered from
  least recently used (head) to most recently used (tail); `popitem` with
  last=False removes the head, and re-insertion appends at the tail.
- The filesystem behind a `FileCache` is modelled as an association list
  from keys to files carrying a modification time and a content; the MD5
  path derivation `md5(key).cache` is modelled as the key itself, which is
  faithful up to hash collisions (the code relies on collision resistance).
  A content of `Option.none` models a file that `pickle.load` fails on.
- Wall-clock time is an explicit `now : Nat` argument threaded to the disk
  operations that consult `time.time()`.
- An operation that can raise an uncaught Python exception is modelled with
  `Option`: `Option.none` is the exception escaping to the caller.
  A disk write that may hit an I/O error takes an explicit `ioFail : Bool`
  environment flag; the code catches the error and returns `False`.
-/

/-- Python values, with a distinguished `none`. -/
inductive PyVal where
  | none : PyVal
  | int (n : Int) : PyVal
  | str (s : String) : PyVal
  deriving DecidableEq, Repr

/-- Lookup in an association list, first binding wins (dict lookup). -/
def lookupKey (k : String) : List (String × PyVal) → Option PyVal
  | [] => Option.none
  | (k₁, v) :: rest => if k₁ = k then some v else lookupKey k rest

/-- Remove the binding of a key from an association list (dict pop / del). -/
def removeKey (k : String) (l : List (String × PyVal)) : List (String × PyVal) :=
  l.filter (fun p => p.1 ≠ k)

/-- State of `LRUCache` (backend/cache_manager.py, class LRUCache): the
capacity `max_size`, the ordered dict `cache` (head = least recently used),
and the stats counters. -/
structure LRUCache where
  max_size : Int
  cache : List (String × PyVal)
  hits : Nat
  misses : Nat
  evictions : Nat
  deriving DecidableEq, Repr

/-- `LRUCache.__init__`: stores `max_size` unchecked and starts empty with
zero counters. -/
def LRUCache.init (max_size : Int) : LRUCache :=
  ⟨max_size, [], 0, 0, 0⟩

/-- `LRUCache.get`: on hit, move the entry to the tail (most recently used),
count a hit and return the value; on miss count a miss and return `None`. -/
def LRUCache.get (c : LRUCache) (key : String) : PyVal × LRUCache :=
  match lookupKey key c.cache with
  | some v =>
      (v, { c with cache := removeKey key c.cache ++ [(key, v)],
                   hits := c.hits + 1 })
  | Option.none =>
      (PyVal.none, { c with misses := c.misses + 1 })

/-- `LRUCache.set`: replace an existing key (refreshing recency); otherwise,
if at or above capacity, evict the least recently used entry first
(`popitem(last=False)`), counting an eviction. `popitem` on an empty dict
raises `KeyError`, modelled by `Option.none`. -/
def LRUCache.set (c : LRUCache) (key : String) (v : PyVal) : Option LRUCache :=
  if (lookupKey key c.cache).isSome then
    some { c with cache := removeKey key c.cache ++ [(key, v)] }
  else if (c.cache.length : Int) ≥ c.max_size then
    match c.cache with
    | [] => Option.none
    | _ :: rest =>
        some { c with cache := rest ++ [(key, v)],
                      evictions := c.evictions + 1 }
  else
    some { c with cache := c.cache ++ [(key, v)] }

/-- `LRUCache.delete`: remove a key if present, reporting whether it was. -/
def LRUCache.delete (c : LRUCache) (key : String) : Bool × LRUCache :=
  if (lookupKey key c.cache).isSome then
    (true, { c with cache := removeKey key c.cache })
  else
    (false, c)

/-- `LRUCache.clear`: drop every entry; counters are untouched. -/
def LRUCache.clear (c : LRUCache) : LRUCache :=
  { c with cache := [] }

/-- `LRUCache.size`: the number of stored entries. -/
def LRUCache.size (c : LRUCache) : Nat :=
  c.cache.length

/-- One file on disk backing a `FileCache` entry: the modification time and
the pickled content (`Option.none` models a file `pickle.load` rejects). -/
structure DiskFile where
  mtime : Nat
  content : Option PyVal
  deriving DecidableEq, Repr

/-- Lookup of a file by key in the modelled cache directory. -/
def lookupFile (k : String) : List (String × DiskFile) → Option DiskFile
  | [] => Option.none
  | (k₁, f) :: rest => if k₁ = k then some f else lookupFile k rest

/-- Removal of a file by key from the modelled cache directory. -/
def removeFile (k : String) (l : List (String × DiskFile)) : List (String × DiskFile) :=
  l.filter (fun p => p.1 ≠ k)

/-- State of `FileCache` (backend/cache_manager.py, class FileCache): the
configured max age, the files of its cache directory, and the counters. -/
structure FileCache where
  max_age_seconds : Int
  files : List (String × DiskFile)
  hits : Nat
  misses : Nat
  writes : Nat
  deletes : Nat
  deriving DecidableEq, Repr

/-- `FileCache.__init__`: empty directory, zero counters. -/
def FileCache.init (max_age_seconds : Int) : FileCache :=
  ⟨max_age_seconds, [], 0, 0, 0, 0⟩

/-- `FileCache._is_expired` at a key: a missing file reads as expired
(the `OSError` branch); otherwise the file age `now - mtime` is compared
against `max_age_seconds`. -/
def FileCache.is_expired (fc : FileCache) (key : String) (now : Nat) : Bool :=
  match lookupFile key fc.files with
  | some f => (now : Int) - (f.mtime : Int) > fc.max_age_seconds
  | Option.none => true

/-- `FileCache.get`: a fresh file is unpickled and counted as a hit; a file
whose content fails to load is a miss (the exception is caught, the file is
kept); an existing but expired file is removed and counted as a miss; a
missing file is a miss. -/
def FileCache.get (fc : FileCache) (key : String) (now : Nat) : PyVal × FileCache :=
  match lookupFile key fc.files with
  | some f =>
      if (now : Int) - (f.mtime : Int) > fc.max_age_seconds then
        (PyVal.none, { fc with files := removeFile key fc.files,
                               misses := fc.misses + 1 })
      else
        match f.content with
        | some v => (v, { fc with hits := fc.hits + 1 })
        | Option.none => (PyVal.none, { fc with misses := fc.misses + 1 })
  | Option.none =>
      (PyVal.none, { fc with misses := fc.misses + 1 })

/-- `FileCache.set`: write the pickled value to the file for the key, with
`mtime = now`. An I/O error (`ioFail`) is caught: the call returns `False`
and the directory is unchanged. -/
def FileCache.set (fc : FileCache) (key : String) (v : PyVal) (now : Nat)
    (ioFail : Bool) : Bool × FileCache :=
  if ioFail then
    (false, fc)
  else
    (true, { fc with files := removeFile key fc.files ++ [(key, ⟨now, some v⟩)],
                     writes := fc.writes + 1 })

/-- `FileCache.delete`: remove the file if it exists. -/
def FileCache.delete (fc : FileCache) (key : String) : Bool × FileCache :=
  match lookupFile key fc.files with
  | some _ =>
      (true, { fc with files := removeFile key fc.files,
                       deletes := fc.deletes + 1 })
  | Option.none => (false, fc)

/-- `FileCache.clear`: remove every `.cache` file of the directory, counting
the removals; every modelled file is a `.cache` file. -/
def FileCache.clear (fc : FileCache) : Nat × FileCache :=
  (fc.files.length,
   { fc with files := [], deletes := fc.deletes + fc.files.length })

/-- `FileCache.cleanup_expired`: remove exactly the expired files. -/
def FileCache.cleanup_expired (fc : FileCache) (now : Nat) : Nat × FileCache :=
  let expired := fc.files.filter
    (fun p => (now : Int) - (p.2.mtime : Int) > fc.max_age_seconds)
  let kept := fc.files.filter
    (fun p => ¬ ((now : Int) - (p.2.mtime : Int) > fc.max_age_seconds))
  (expired.length,
   { fc with files := kept, deletes := fc.deletes + expired.length })

/-- State of `QueryCache` (backend/cache_manager.py, class QueryCache): the
two tiers it composes plus its own counters. -/
structure QueryCache where
  memory_cache : LRUCache
  file_cache : FileCache
  memory_hits : Nat
  file_hits : Nat
  misses : Nat
  stores : Nat
  deriving DecidableEq, Repr

/-- `QueryCache.__init__` over given tiers. -/
def QueryCache.init (m : LRUCache) (f : FileCache) : QueryCache :=
  ⟨m, f, 0, 0, 0, 0⟩

/-- `QueryCache._generate_cache_key`: the code returns
`query: ++ md5(query ++ : ++ str(params))`; MD5 is modelled as the identity
on its (collision-resistantly hashed) input, and `str(params)` as the
`params` string itself. -/
def QueryCache.generate_cache_key (query : String) (params : String) : String :=
  "query:" ++ query ++ ":" ++ params

/-- `QueryCache.get`: memory tier first; a non-`None` result is a memory
hit. Otherwise the file tier; a non-`None` result is promoted into memory
(a `set` that can raise when the memory tier is misconfigured, hence
`Option`) and counted as a file hit. Otherwise a miss returning `None`. -/
def QueryCache.get (qc : QueryCache) (query : String) (params : String)
    (now : Nat) : Option (PyVal × QueryCache) :=
  let key := QueryCache.generate_cache_key query params
  let r := qc.memory_cache.get key
  if r.1 ≠ PyVal.none then
    some (r.1, { qc with memory_cache := r.2,
                         memory_hits := qc.memory_hits + 1 })
  else
    let r₂ := qc.file_cache.get key now
    if r₂.1 ≠ PyVal.none then
      match r.2.set key r₂.1 with
      | some m₂ =>
          some (r₂.1, { qc with memory_cache := m₂, file_cache := r₂.2,
                                file_hits := qc.file_hits + 1 })
      | Option.none => Option.none
    else
      some (PyVal.none, { qc with memory_cache := r.2, file_cache := r₂.2,
                                  misses := qc.misses + 1 })

/-- `QueryCache.set`: write-through to memory then disk; the disk write
result is ignored (best effort), the memory write can raise only when the
memory tier is misconfigured. -/
def QueryCache.set (qc : QueryCache) (query : String) (params : String)
    (v : PyVal) (now : Nat) (ioFail : Bool) : Option QueryCache :=
  let key := QueryCache.generate_cache_key query params
  match qc.memory_cache.set key v with
  | some m₂ =>
      let w := qc.file_cache.set key v now ioFail
      some { qc with memory_cache := m₂, file_cache := w.2,
                     stores := qc.stores + 1 }
  | Option.none => Option.none

/-- `QueryCache.invalidate_pattern`: clears the whole memory tier and the
whole file tier; the `table_name` argument is only logged. Returns the
number of files removed. -/
def QueryCache.invalidate_pattern (qc : QueryCache) (table_name : String) :
    Nat × QueryCache :=
  let m := qc.memory_cache.clear
  let f := qc.file_cache.clear
  (f.1, { qc with memory_cache := m, file_cache := f.2 })

/-- Result map of `CacheManager.clear_all_caches`. -/
structure ClearAllResult where
  memory_cache_cleared : Nat
  file_cache_deleted : Nat
  image_cache_deleted : Nat
  config_cache_cleared : Nat
  deriving DecidableEq, Repr

/-- State of `CacheManager` (backend/cache_manager.py, class CacheManager):
the owned cache instances. `query_cache` composes `memory_cache` and
`file_cache` by reference and keeps only extra counters, which
`clear_all_caches` does not touch, so it is not repeated here. -/
structure CacheManager where
  memory_cache : LRUCache
  file_cache : FileCache
  image_cache : FileCache
  config_cache : LRUCache
  deriving DecidableEq, Repr

/-- `CacheManager.__init__` with the default sizes of the code. -/
def CacheManager.init : CacheManager :=
  ⟨LRUCache.init 1000, FileCache.init 3600,
   FileCache.init (24 * 3600), LRUCache.init 100⟩

/-- `CacheManager.clear_all_caches`: reports `memory_cache.size()` and
`config_cache.size()` without calling `clear()` on either memory-backed
instance, and calls `clear()` on the two file caches. -/
def CacheManager.clear_all_caches (m : CacheManager) :
    ClearAllResult × CacheManager :=
  let mc := m.memory_cache.size
  let f := m.file_cache.clear
  let i := m.image_cache.clear
  let cc := m.config_cache.size
  (⟨mc, f.1, i.1, cc⟩, { m with file_cache := f.2, image_cache := i.2 })

/-- The public operations of an `LRUCache`, for invariants quantified over
operation sequences. -/
inductive LRUOp where
  | get (k : String) : LRUOp
  | set (k : String) (v : PyVal) : LRUOp
  | delete (k : String) : LRUOp
  | clear : LRUOp

/-- Run one `LRUOp`; only `set` can raise. -/
def LRUCache.run (c : LRUCache) : LRUOp → Option LRUCache
  | LRUOp.get k => some (c.get k).2
  | LRUOp.set k v => c.set k v
  | LRUOp.delete k => some (c.delete k).2
  | LRUOp.clear => some c.clear

/-- Run a sequence of `LRUOp`s; `Option.none` when one of them raised. -/
def LRUCache.runOps (c : LRUCache) : List LRUOp → Option LRUCache
  | [] => some c
  | op :: rest =>
      match c.run op with
      | some c₂ => c₂.runOps rest
      | Option.none => Option.none

/-- The number of `get` calls in a sequence of `LRUOp`s. -/
def countGets : List LRUOp → Nat
  | [] => 0
  | LRUOp.get _ :: rest => countGets rest + 1
  | _ :: rest => countGets rest

/-- Insert a list of key/value pairs by successive `set` calls. -/
def LRUCache.insertAll (c : LRUCache) : List (String × PyVal) → Option LRUCache
  | [] => some c
  | (k, v) :: rest =>
      match c.set k v with
      | some c₂ => c₂.insertAll rest
      | Option.none => Option.none

/-- The public operations of a `FileCache`; none of them raises. -/
inductive FileOp where
  | get (k : String) (now : Nat) : FileOp
  | set (k : String) (v : PyVal) (now : Nat) (ioFail : Bool) : FileOp
  | delete (k : String) : FileOp
  | clear : FileOp
  | cleanup (now : Nat) : FileOp

/-- Run one `FileOp`. -/
def FileCache.run (fc : FileCache) : FileOp → FileCache
  | FileOp.get k now => (fc.get k now).2
  | FileOp.set k v now ioFail => (fc.set k v now ioFail).2
  | FileOp.delete k => (fc.delete k).2
  | FileOp.clear => fc.clear.2
  | FileOp.cleanup now => (fc.cleanup_expired now).2

/-- Run a sequence of `FileOp`s. -/
def FileCache.runOps (fc : FileCache) : List FileOp → FileCache
  | [] => fc
  | op :: rest => (fc.run op).runOps rest

/-- The number of `get` calls in a sequence of `FileOp`s. -/
def countFileGets : List FileOp → Nat
  | [] => 0
  | FileOp.get _ _ :: rest => countFileGets rest + 1
  | _ :: rest => countFileGets rest

/-- The public operations of a `QueryCache`. -/
inductive QOp where
  | get (query : String) (params : String) (now : Nat) : QOp
  | set (query : String) (params : String) (v : PyVal) (now : Nat)
      (ioFail : Bool) : QOp
  | invalidate (table_name : String) : QOp

/-- Run one `QOp`; `get` and `set` can raise through the memory tier. -/
def QueryCache.run (qc : QueryCache) : QOp → Option QueryCache
  | QOp.get q p now =>
      match qc.get q p now with
      | some r => some r.2
      | Option.none => Option.none
  | QOp.set q p v now ioFail => qc.set q p v now ioFail
  | QOp.invalidate t => some (qc.invalidate_pattern t).2

/-- Run a sequence of `QOp`s. -/
def QueryCache.runOps (qc : QueryCache) : List QOp → Option QueryCache
  | [] => some qc
  | op :: rest =>
      match qc.run op with
      | some qc₂ => qc₂.runOps rest
      | Option.none => Option.none

/-- The number of `get` calls in a sequence of `QOp`s. -/
def countQGets : List QOp → Nat
  | [] => 0
  | QOp.get _ _ _ :: rest => countQGets rest + 1
  | _ :: rest => countQGets rest

/-! Association-list lemmas shared by the proofs. -/

lemma lookupKey_eq_none_iff {k : String} {l : List (String × PyVal)} :
    lookupKey k l = Option.none ↔ k ∉ l.map Prod.fst := by
  induction l with
  | nil => simp [lookupKey]
  | cons p rest ih =>
      obtain ⟨k₁, v⟩ := p
      by_cases h : k₁ = k
      · subst h
        simp [lookupKey]
      · simp [lookupKey, h, ih, Ne.symm h]

lemma lookupKey_append {k : String} {l₁ l₂ : List (String × PyVal)} :
    lookupKey k (l₁ ++ l₂) =
      match lookupKey k l₁ with
      | some v => some v
      | Option.none => lookupKey k l₂ := by
  induction l₁ with
  | nil => simp [lookupKey]
  | cons p rest ih =>
      obtain ⟨k₁, v⟩ := p
      by_cases h : k₁ = k <;> simp [lookupKey, h, ih]

lemma lookupKey_removeKey_self {k : String} {l : List (String × PyVal)} :
    lookupKey k (removeKey k l) = Option.none := by
  rw [lookupKey_eq_none_iff]
  intro hmem
  obtain ⟨p, hp, hpk⟩ := List.mem_map.mp hmem
  have := List.of_mem_filter hp
  simp [hpk] at this

lemma lookupKey_singleton_self {k : String} {v : PyVal} :
    lookupKey k [(k, v)] = some v := by
  simp [lookupKey]

lemma removeKey_length_le {k : String} {l : List (String × PyVal)} :
    (removeKey k l).length ≤ l.length :=
  List.length_filter_le _ l

lemma removeKey_length_lt {k : String} {l : List (String × PyVal)}
    (h : (lookupKey k l).isSome) : (removeKey k l).length < l.length := by
  induction l with
  | nil => simp [lookupKey] at h
  | cons p rest ih =>
      obtain ⟨k₁, v⟩ := p
      by_cases hk : k₁ = k
      · subst hk
        have hle : (removeKey k₁ rest).length ≤ rest.length := removeKey_length_le
        have hdrop : removeKey k₁ ((k₁, v) :: rest) = removeKey k₁ rest := by
          simp [removeKey]
        rw [hdrop]
        simp only [List.length_cons]
        omega
      · have h₂ : (lookupKey k rest).isSome := by
          simpa [lookupKey, hk] using h
        have hkeep : removeKey k ((k₁, v) :: rest) = (k₁, v) :: removeKey k rest := by
          simp [removeKey, hk]
        rw [hkeep]
        have := ih h₂
        simp only [List.length_cons]
        omega

lemma keys_removeKey_not_mem {k : String} {l : List (String × PyVal)} :
    k ∉ (removeKey k l).map Prod.fst := by
  rw [← lookupKey_eq_none_iff]
  exact lookupKey_removeKey_self

lemma removeKey_sublist {k : String} (l : List (String × PyVal)) :
    (removeKey k l).Sublist l :=
  List.filter_sublist l

lemma keys_removeKey_nodup {k : String} {l : List (String × PyVal)}
    (h : (l.map Prod.fst).Nodup) : ((removeKey k l).map Prod.fst).Nodup :=
  ((removeKey_sublist l).map Prod.fst).nodup h

lemma lookupKey_append_self {k : String} {v : PyVal} {l : List (String × PyVal)}
    (h : lookupKey k l = Option.none) : lookupKey k (l ++ [(k, v)]) = some v := by
  rw [lookupKey_append, h]
  simp [lookupKey]

lemma lookupKey_cons_none {k k₁ : String} {v₁ : PyVal} {rest : List (String × PyVal)}
    (h : lookupKey k ((k₁, v₁) :: rest) = Option.none) :
    k₁ ≠ k ∧ lookupKey k rest = Option.none := by
  by_cases hk : k₁ = k
  · simp [lookupKey, hk] at h
  · simp only [lookupKey, if_neg hk] at h
    exact ⟨hk, h⟩

/-- Behaviour of `LRUCache.get` on a hit. -/
lemma LRUCache.get_hit {c : LRUCache} {key : String} {v : PyVal}
    (h : lookupKey key c.cache = some v) :
    c.get key = (v, { c with cache := removeKey key c.cache ++ [(key, v)],
                             hits := c.hits + 1 }) := by
  unfold LRUCache.get
  rw [h]

/-- Behaviour of `LRUCache.get` on a miss. -/
lemma LRUCache.get_miss {c : LRUCache} {key : String}
    (h : lookupKey key c.cache = Option.none) :
    c.get key = (PyVal.none, { c with misses := c.misses + 1 }) := by
  unfold LRUCache.get
  rw [h]

/-- A successful `LRUCache.set` stores the value under the key and leaves
the hit and miss counters and the capacity unchanged. -/
lemma LRUCache.set_ok {c c₂ : LRUCache} {key : String} {v : PyVal}
    (h : c.set key v = some c₂) :
    lookupKey key c₂.cache = some v ∧ c₂.hits = c.hits ∧
      c₂.misses = c.misses ∧ c₂.max_size = c.max_size := by
  unfold LRUCache.set at h
  by_cases h₁ : (lookupKey key c.cache).isSome
  · rw [if_pos h₁] at h
    obtain rfl : ({ c with cache := removeKey key c.cache ++ [(key, v)] } : LRUCache) = c₂ :=
      Option.some.inj h
    refine ⟨?_, rfl, rfl, rfl⟩
    exact lookupKey_append_self lookupKey_removeKey_self
  · rw [if_neg h₁] at h
    have hnone : lookupKey key c.cache = Option.none := by
      cases hl : lookupKey key c.cache
      · rfl
      · rw [hl] at h₁; simp at h₁
    by_cases h₂ : (c.cache.length : Int) ≥ c.max_size
    · rw [if_pos h₂] at h
      cases hc : c.cache with
      | nil => rw [hc] at h; exact absurd h (by simp)
      | cons p rest =>
          rw [hc] at h
          obtain rfl : ({ c with cache := rest ++ [(key, v)], evictions := c.evictions + 1 } : LRUCache) = c₂ :=
            Option.some.inj h
          refine ⟨?_, rfl, rfl, rfl⟩
          rw [hc] at hnone
          obtain ⟨k₁, v₁⟩ := p
          exact lookupKey_append_self (lookupKey_cons_none hnone).2
    · rw [if_neg h₂] at h
      obtain rfl : ({ c with cache := c.cache ++ [(key, v)] } : LRUCache) = c₂ :=
        Option.some.inj h
      refine ⟨?_, rfl, rfl, rfl⟩
      exact lookupKey_append_self hnone

/-- A successful `LRUCache.set` makes the very next `get` of that key
return the value. -/
lemma LRUCache.set_then_get {c c₂ : LRUCache} {key : String} {v : PyVal}
    (h : c.set key v = some c₂) : (c₂.get key).1 = v := by
  unfold LRUCache.get
  rw [(LRUCache.set_ok h).1]

/-- On a positive-capacity cache, `set` never raises. -/
lemma LRUCache.set_isSome {c : LRUCache} (key : String) (v : PyVal)
    (h : 0 < c.max_size) : (c.set key v).isSome := by
  unfold LRUCache.set
  by_cases h₁ : (lookupKey key c.cache).isSome
  · rw [if_pos h₁]; rfl
  · rw [if_neg h₁]
    by_cases h₂ : (c.cache.length : Int) ≥ c.max_size
    · rw [if_pos h₂]
      cases hc : c.cache with
      | nil =>
          rw [hc] at h₂
          simp at h₂
          omega
      | cons p rest => rfl
    · rw [if_neg h₂]; rfl

/-- Evaluation of `set` on a fresh key with spare capacity: append. -/
lemma LRUCache.set_fresh_spare {c : LRUCache} {key : String} (v : PyVal)
    (hnone : lookupKey key c.cache = Option.none)
    (hroom : (c.cache.length : Int) < c.max_size) :
    c.set key v = some { c with cache := c.cache ++ [(key, v)] } := by
  unfold LRUCache.set
  rw [if_neg (by simp [hnone]), if_neg (by omega)]

/-- One step of `insertAll` through a successful `set`. -/
lemma LRUCache.insertAll_cons_some {c c₂ : LRUCache} {k : String} {v : PyVal}
    {rest : List (String × PyVal)} (h : c.set k v = some c₂) :
    c.insertAll ((k, v) :: rest) = c₂.insertAll rest := by
  show (match c.set k v with
        | some c₃ => c₃.insertAll rest
        | Option.none => Option.none) = c₂.insertAll rest
  rw [h]

/-- Filling a cache by fresh, pairwise distinct keys within spare capacity
simply appends the pairs in order, with no eviction and no raise. -/
lemma LRUCache.insertAll_fresh :
    ∀ (kvs : List (String × PyVal)) (c : LRUCache),
      (((c.cache ++ kvs).map Prod.fst)).Nodup →
      (c.cache.length : Int) + kvs.length ≤ c.max_size →
      c.insertAll kvs = some { c with cache := c.cache ++ kvs } := by
  intro kvs
  induction kvs with
  | nil =>
      intro c _ _
      simp [LRUCache.insertAll]
  | cons p rest ih =>
      intro c hnd hlen
      obtain ⟨k, v⟩ := p
      have hkfresh : k ∉ c.cache.map Prod.fst := by
        rw [List.map_append, List.nodup_append] at hnd
        intro hmem
        exact absurd (by simp) (hnd.2.2 hmem)
      have hnone : lookupKey k c.cache = Option.none :=
        lookupKey_eq_none_iff.mpr hkfresh
      have hroom : (c.cache.length : Int) < c.max_size := by
        simp only [List.length_cons] at hlen
        push_cast at hlen ⊢
        omega
      rw [LRUCache.insertAll_cons_some (LRUCache.set_fresh_spare v hnone hroom)]
      have hstep := ih { c with cache := c.cache ++ [(k, v)] }
        (by simpa using hnd)
        (by simp only [List.length_append, List.length_cons, List.length_nil] at hlen ⊢; push_cast at hlen ⊢; omega)
      rw [hstep]
      simp

/-- The dictionary invariant of an `LRUCache`: pairwise distinct keys and
size within capacity. -/
def LRUCache.WF (c : LRUCache) : Prop :=
  ((c.cache.map Prod.fst)).Nodup ∧ (c.cache.length : Int) ≤ c.max_size

lemma nodup_append_singleton {l : List String} {k : String}
    (hnd : l.Nodup) (hk : k ∉ l) : (l ++ [k]).Nodup := by
  rw [List.nodup_append]
  refine ⟨hnd, List.nodup_singleton k, ?_⟩
  intro a ha hmem
  simp only [List.mem_singleton] at hmem
  exact hk (hmem ▸ ha)

/-- The reinsertion performed by a hit or by an overwrite preserves `WF`. -/
lemma LRUCache.WF_reinsert {c : LRUCache} {key : String} {v : PyVal}
    (hwf : c.WF) (hsome : (lookupKey key c.cache).isSome) :
    WF { c with cache := removeKey key c.cache ++ [(key, v)] } := by
  obtain ⟨hnd, hlen⟩ := hwf
  constructor
  · simp only [List.map_append]
    exact nodup_append_singleton (keys_removeKey_nodup hnd)
      (by simpa using keys_removeKey_not_mem)
  · simp only [List.length_append, List.length_singleton]
    have := @removeKey_length_lt key c.cache hsome
    push_cast
    omega

/-- Every successful `set` preserves `WF`. -/
lemma LRUCache.WF_set {c c₂ : LRUCache} {key : String} {v : PyVal}
    (hwf : c.WF) (h : c.set key v = some c₂) : c₂.WF := by
  unfold LRUCache.set at h
  by_cases h₁ : (lookupKey key c.cache).isSome
  · rw [if_pos h₁] at h
    obtain rfl := Option.some.inj h
    exact LRUCache.WF_reinsert hwf h₁
  · rw [if_neg h₁] at h
    have hnone : lookupKey key c.cache = Option.none := by
      cases hl : lookupKey key c.cache
      · rfl
      · rw [hl] at h₁; simp at h₁
    have hkfresh : key ∉ c.cache.map Prod.fst := lookupKey_eq_none_iff.mp hnone
    obtain ⟨hnd, hlen⟩ := hwf
    by_cases h₂ : (c.cache.length : Int) ≥ c.max_size
    · rw [if_pos h₂] at h
      cases hc : c.cache with
      | nil => rw [hc] at h; exact absurd h (by simp)
      | cons p rest =>
          rw [hc] at h
          obtain rfl := Option.some.inj h
          rw [hc] at hnd hlen hkfresh
          constructor
          · simp only [List.map_append]
            refine nodup_append_singleton ?_ ?_
            · exact (List.nodup_cons.mp (by simpa using hnd)).2
            · intro hmem
              exact hkfresh (by simp [hmem])
          · simp only [List.length_append, List.length_singleton]
            simp only [List.length_cons] at hlen
            push_cast at hlen ⊢
            omega
    · rw [if_neg h₂] at h
      obtain rfl := Option.some.inj h
      constructor
      · simp only [List.map_append]
        exact nodup_append_singleton hnd (by simpa using hkfresh)
      · simp only [List.length_append, List.length_singleton]
        push_cast
        omega

/-- `get` preserves `WF`. -/
lemma LRUCache.WF_get {c : LRUCache} (key : String) (hwf : c.WF) :
    (c.get key).2.WF := by
  unfold LRUCache.get
  cases hl : lookupKey key c.cache with
  | some v => exact LRUCache.WF_reinsert hwf (by simp [hl])
  | none => exact hwf

/-- `delete` preserves `WF`. -/
lemma LRUCache.WF_delete {c : LRUCache} (key : String) (hwf : c.WF) :
    (c.delete key).2.WF := by
  obtain ⟨hnd, hlen⟩ := hwf
  unfold LRUCache.delete
  by_cases h₁ : (lookupKey key c.cache).isSome
  · rw [if_pos h₁]
    refine ⟨keys_removeKey_nodup hnd, ?_⟩
    have := @removeKey_length_le key c.cache
    push_cast
    omega
  · rw [if_neg h₁]
    exact ⟨hnd, hlen⟩

/-- Every successful operation preserves `WF` and the capacity. -/
lemma LRUCache.WF_run {c c₂ : LRUCache} {op : LRUOp}
    (hwf : c.WF) (h : c.run op = some c₂) :
    c₂.WF ∧ c₂.max_size = c.max_size := by
  cases op with
  | get k =>
      obtain rfl : (c.get k).2 = c₂ := Option.some.inj h
      refine ⟨LRUCache.WF_get k hwf, ?_⟩
      unfold LRUCache.get
      cases hl : lookupKey k c.cache <;> rfl
  | set k v =>
      refine ⟨LRUCache.WF_set hwf h, (LRUCache.set_ok h).2.2.2⟩
  | delete k =>
      obtain rfl : (c.delete k).2 = c₂ := Option.some.inj h
      refine ⟨LRUCache.WF_delete k hwf, ?_⟩
      unfold LRUCache.delete
      by_cases h₁ : (lookupKey k c.cache).isSome
      · rw [if_pos h₁]
      · rw [if_neg h₁]
  | clear =>
      obtain rfl : c.clear = c₂ := Option.some.inj h
      obtain ⟨hnd, hlen⟩ := hwf
      refine ⟨⟨by simp [LRUCache.clear], ?_⟩, rfl⟩
      have hnn : (0 : Int) ≤ (c.cache.length : Int) := by positivity
      simp only [LRUCache.clear, List.length_nil, Nat.cast_zero]
      omega

/-- Every successful operation sequence preserves `WF` and the capacity. -/
lemma LRUCache.WF_runOps :
    ∀ (ops : List LRUOp) (c c₂ : LRUCache),
      c.WF → c.runOps ops = some c₂ →
      c₂.WF ∧ c₂.max_size = c.max_size := by
  intro ops
  induction ops with
  | nil =>
      intro c c₂ hwf h
      obtain rfl := Option.some.inj h
      exact ⟨hwf, rfl⟩
  | cons op rest ih =>
      intro c c₂ hwf h
      unfold LRUCache.runOps at h
      cases hrun : c.run op with
      | none => rw [hrun] at h; exact absurd h (by simp)
      | some c₁ =>
          rw [hrun] at h
          obtain ⟨hwf₁, hmax₁⟩ := LRUCache.WF_run hwf hrun
          obtain ⟨hwf₂, hmax₂⟩ := ih c₁ c₂ hwf₁ h
          exact ⟨hwf₂, hmax₂.trans hmax₁⟩

/-- Each `LRUCache.get` increments exactly one of hits and misses. -/
lemma LRUCache.get_tally (c : LRUCache) (key : String) :
    (c.get key).2.hits + (c.get key).2.misses = c.hits + c.misses + 1 := by
  unfold LRUCache.get
  cases hl : lookupKey key c.cache <;> simp <;> omega

/-- `delete` and `clear` leave hits and misses unchanged. -/
lemma LRUCache.delete_counts (c : LRUCache) (key : String) :
    (c.delete key).2.hits = c.hits ∧ (c.delete key).2.misses = c.misses := by
  unfold LRUCache.delete
  by_cases h₁ : (lookupKey key c.cache).isSome
  · rw [if_pos h₁]; exact ⟨rfl, rfl⟩
  · rw [if_neg h₁]; exact ⟨rfl, rfl⟩

/-- Counter bookkeeping of one `LRUOp`. -/
lemma LRUCache.run_tally {c c₂ : LRUCache} {op : LRUOp}
    (h : c.run op = some c₂) :
    c₂.hits + c₂.misses = c.hits + c.misses + countGets [op] := by
  cases op with
  | get k =>
      obtain rfl : (c.get k).2 = c₂ := Option.some.inj h
      simpa [countGets] using LRUCache.get_tally c k
  | set k v =>
      have := LRUCache.set_ok h
      simp [countGets, this.2.1, this.2.2.1]
  | delete k =>
      obtain rfl : (c.delete k).2 = c₂ := Option.some.inj h
      have := LRUCache.delete_counts c k
      simp [countGets, this.1, this.2]
  | clear =>
      obtain rfl : c.clear = c₂ := Option.some.inj h
      simp [countGets, LRUCache.clear]

/-- Counter bookkeeping of a sequence of `LRUOp`s. -/
lemma LRUCache.runOps_tally :
    ∀ (ops : List LRUOp) (c c₂ : LRUCache),
      c.runOps ops = some c₂ →
      c₂.hits + c₂.misses = c.hits + c.misses + countGets ops := by
  intro ops
  induction ops with
  | nil =>
      intro c c₂ h
      obtain rfl := Option.some.inj h
      simp [countGets]
  | cons op rest ih =>
      intro c c₂ h
      unfold LRUCache.runOps at h
      cases hrun : c.run op with
      | none => rw [hrun] at h; exact absurd h (by simp)
      | some c₁ =>
          rw [hrun] at h
          have h₁ := LRUCache.run_tally hrun
          have h₂ := ih c₁ c₂ h
          cases op <;> simp [countGets] at h₁ ⊢ <;> omega

/-- Each `FileCache.get` increments exactly one of hits and misses. -/
lemma FileCache.file_get_tally (fc : FileCache) (key : String) (now : Nat) :
    (fc.get key now).2.hits + (fc.get key now).2.misses =
      fc.hits + fc.misses + 1 := by
  rcases hl : lookupFile key fc.files with _ | f
  · simp [FileCache.get, hl]
    omega
  · by_cases hexp : (now : Int) - (f.mtime : Int) > fc.max_age_seconds
    · simp [FileCache.get, hl, hexp]
      omega
    · cases hcontent : f.content <;>
        simp [FileCache.get, hl, hexp, hcontent] <;> omega

/-- Counter bookkeeping of one `FileOp`. -/
lemma FileCache.file_run_tally (fc : FileCache) (op : FileOp) :
    (fc.run op).hits + (fc.run op).misses =
      fc.hits + fc.misses + countFileGets [op] := by
  cases op with
  | get k now =>
      simpa [countFileGets] using FileCache.file_get_tally fc k now
  | set k v now ioFail =>
      unfold FileCache.run FileCache.set
      cases ioFail <;> simp [countFileGets]
  | delete k =>
      unfold FileCache.run FileCache.delete
      cases hl : lookupFile k fc.files <;> simp [countFileGets, hl]
  | clear =>
      simp [FileCache.run, FileCache.clear, countFileGets]
  | cleanup now =>
      simp [FileCache.run, FileCache.cleanup_expired, countFileGets]

/-- Counter bookkeeping of a sequence of `FileOp`s. -/
lemma FileCache.file_runOps_tally :
    ∀ (ops : List FileOp) (fc : FileCache),
      (fc.runOps ops).hits + (fc.runOps ops).misses =
        fc.hits + fc.misses + countFileGets ops := by
  intro ops
  induction ops with
  | nil =>
      intro fc
      simp [FileCache.runOps, countFileGets]
  | cons op rest ih =>
      intro fc
      have h₁ := FileCache.file_run_tally fc op
      have h₂ := ih (fc.run op)
      unfold FileCache.runOps
      cases op <;> simp [countFileGets] at h₁ h₂ ⊢ <;> omega

/-- Each successful `QueryCache.get` increments exactly one of the three
orchestrator counters. -/
lemma QueryCache.query_get_tally {qc : QueryCache} {query params : String}
    {now : Nat} {r : PyVal × QueryCache}
    (h : qc.get query params now = some r) :
    r.2.memory_hits + r.2.file_hits + r.2.misses =
      qc.memory_hits + qc.file_hits + qc.misses + 1 := by
  simp only [QueryCache.get] at h
  split at h
  · obtain rfl := Option.some.inj h
    simp
    omega
  · split at h
    · split at h
      · obtain rfl := Option.some.inj h
        simp
        omega
      · exact absurd h (by simp)
    · obtain rfl := Option.some.inj h
      simp
      omega

/-- A successful `QueryCache.set` leaves the three lookup counters alone. -/
lemma QueryCache.set_counts {qc qc₂ : QueryCache} {query params : String}
    {v : PyVal} {now : Nat} {ioFail : Bool}
    (h : qc.set query params v now ioFail = some qc₂) :
    qc₂.memory_hits = qc.memory_hits ∧ qc₂.file_hits = qc.file_hits ∧
      qc₂.misses = qc.misses := by
  simp only [QueryCache.set] at h
  split at h
  · obtain rfl := Option.some.inj h
    exact ⟨rfl, rfl, rfl⟩
  · exact absurd h (by simp)

/-- `invalidate_pattern` leaves the three lookup counters alone. -/
lemma QueryCache.invalidate_counts (qc : QueryCache) (t : String) :
    (qc.invalidate_pattern t).2.memory_hits = qc.memory_hits ∧
      (qc.invalidate_pattern t).2.file_hits = qc.file_hits ∧
      (qc.invalidate_pattern t).2.misses = qc.misses :=
  ⟨rfl, rfl, rfl⟩

/-- Counter bookkeeping of a sequence of `QOp`s. -/
lemma QueryCache.query_runOps_tally :
    ∀ (ops : List QOp) (qc qc₂ : QueryCache),
      qc.runOps ops = some qc₂ →
      qc₂.memory_hits + qc₂.file_hits + qc₂.misses =
        qc.memory_hits + qc.file_hits + qc.misses + countQGets ops := by
  intro ops
  induction ops with
  | nil =>
      intro qc qc₂ h
      obtain rfl := Option.some.inj h
      simp [countQGets]
  | cons op rest ih =>
      intro qc qc₂ h
      unfold QueryCache.runOps at h
      cases hrun : qc.run op with
      | none => rw [hrun] at h; exact absurd h (by simp)
      | some qc₁ =>
          rw [hrun] at h
          have h₂ := ih qc₁ qc₂ h
          cases op with
          | get q p now =>
              have h₁ : qc₁.memory_hits + qc₁.file_hits + qc₁.misses =
                  qc.memory_hits + qc.file_hits + qc.misses + 1 := by
                simp only [QueryCache.run] at hrun
                cases hg : qc.get q p now with
                | none => rw [hg] at hrun; exact absurd hrun (by simp)
                | some r =>
                    rw [hg] at hrun
                    obtain rfl : r.2 = qc₁ := Option.some.inj hrun
                    exact QueryCache.query_get_tally hg
              simp only [countQGets] at *
              omega
          | set q p v now ioFail =>
              have h₁ := @QueryCache.set_counts qc qc₁ q p v now ioFail hrun
              simp only [countQGets] at *
              omega
          | invalidate t =>
              obtain rfl : (qc.invalidate_pattern t).2 = qc₁ :=
                Option.some.inj hrun
              have h₁ := QueryCache.invalidate_counts qc t
              simp only [countQGets] at *
              omega

lemma lookupFile_removeFile_self {k : String} {l : List (String × DiskFile)} :
    lookupFile k (removeFile k l) = Option.none := by
  induction l with
  | nil => rfl
  | cons p rest ih =>
      obtain ⟨k₁, f⟩ := p
      by_cases hk : k₁ = k
      · simpa [removeFile, hk] using ih
      · simpa [removeFile, lookupFile, hk] using ih

/-- Evaluation of `set` on a fresh key with the cache at capacity: evict
the head of the recency order then append. -/
lemma LRUCache.set_fresh_full {c : LRUCache} {key : String} (v : PyVal)
    (hnone : lookupKey key c.cache = Option.none)
    (hfull : (c.cache.length : Int) ≥ c.max_size)
    {hd : String × PyVal} {tl : List (String × PyVal)} (hc : c.cache = hd :: tl) :
    c.set key v = some { c with cache := tl ++ [(key, v)],
                                evictions := c.evictions + 1 } := by
  unfold LRUCache.set
  rw [if_neg (by simp [hnone]), if_pos hfull, hc]

/-- `insertAll` distributes over list append. -/
lemma LRUCache.insertAll_append (xs : List (String × PyVal)) :
    ∀ (c : LRUCache) (ys : List (String × PyVal)),
      c.insertAll (xs ++ ys) =
        match c.insertAll xs with
        | some c₂ => c₂.insertAll ys
        | Option.none => Option.none := by
  induction xs with
  | nil => intro c ys; simp [LRUCache.insertAll]
  | cons p rest ih =>
      intro c ys
      obtain ⟨k, v⟩ := p
      cases hset : c.set k v with
      | none =>
          have hl : c.insertAll ((k, v) :: (rest ++ ys)) = Option.none := by
            show (match c.set k v with
                  | some c₃ => c₃.insertAll (rest ++ ys)
                  | Option.none => Option.none) = Option.none
            rw [hset]
          have hr : c.insertAll ((k, v) :: rest) = Option.none := by
            show (match c.set k v with
                  | some c₃ => c₃.insertAll rest
                  | Option.none => Option.none) = Option.none
            rw [hset]
          rw [List.cons_append, hl, hr]
      | some c₂ =>
          rw [List.cons_append, LRUCache.insertAll_cons_some hset,
            ih c₂ ys, LRUCache.insertAll_cons_some hset]

/-- C9: for every `table_name` argument, `QueryCache.invalidate_pattern`
clears the entire memory tier and disk tier (both are empty afterwards,
and the returned count is the number of files removed), and its effect is
identical for any two label arguments — the label is never consulted. -/
theorem claim_C9_invalidate_coarse (qc : QueryCache) (t₁ t₂ : String) :
    (qc.invalidate_pattern t₁).2.memory_cache.cache = [] ∧
    (qc.invalidate_pattern t₁).2.file_cache.files = [] ∧
    (qc.invalidate_pattern t₁).1 = qc.file_cache.files.length ∧
    qc.invalidate_pattern t₁ = qc.invalidate_pattern t₂ :=
  ⟨rfl, rfl, rfl, rfl⟩

/-- C8: `FileCache.get` misses when no file exists for the key; an existing
but expired file (age `now - mtime` beyond max-age) is a miss and the
backing file is removed by the check, so it no longer exists afterwards;
an existing, fresh, deserializable file yields its content. -/
theorem claim_C8_disk_ttl (fc : FileCache) (key : String) (now : Nat) :
    (lookupFile key fc.files = Option.none →
      fc.get key now = (PyVal.none, { fc with misses := fc.misses + 1 })) ∧
    (∀ f : DiskFile, lookupFile key fc.files = some f →
      (now : Int) - (f.mtime : Int) > fc.max_age_seconds →
      fc.get key now =
        (PyVal.none, { fc with files := removeFile key fc.files,
                               misses := fc.misses + 1 }) ∧
      lookupFile key (fc.get key now).2.files = Option.none) ∧
    (∀ (f : DiskFile) (v : PyVal), lookupFile key fc.files = some f →
      ¬ ((now : Int) - (f.mtime : Int) > fc.max_age_seconds) →
      f.content = some v →
      fc.get key now = (v, { fc with hits := fc.hits + 1 })) := by
  refine ⟨?_, ?_, ?_⟩
  · intro h
    simp [FileCache.get, h]
  · intro f hf hexp
    have hg : fc.get key now =
        (PyVal.none, { fc with files := removeFile key fc.files,
                               misses := fc.misses + 1 }) := by
      simp [FileCache.get, hf, hexp]
    refine ⟨hg, ?_⟩
    rw [hg]
    exact lookupFile_removeFile_self
  · intro f v hf hexp hcontent
    simp [FileCache.get, hf, hexp, hcontent]

/-- C8 witness: a `FileCache` with max-age 1 holding one file written at
time 0; at `now = 2` the file is expired — miss and the file is gone; at
`now = 1` it is fresh — hit with its content; an unknown key misses. -/
theorem claim_C8_disk_ttl_witness :
    (lookupFile "z" ([("k", ⟨0, some (PyVal.int 7)⟩)] : List (String × DiskFile)) = Option.none ∧
      FileCache.get ⟨1, [("k", ⟨0, some (PyVal.int 7)⟩)], 0, 0, 0, 0⟩ "z" 2 =
        (PyVal.none, ⟨1, [("k", ⟨0, some (PyVal.int 7)⟩)], 0, 1, 0, 0⟩)) ∧
    ((2 : Int) - (0 : Nat) > 1 ∧
      FileCache.get ⟨1, [("k", ⟨0, some (PyVal.int 7)⟩)], 0, 0, 0, 0⟩ "k" 2 =
        (PyVal.none, ⟨1, [], 0, 1, 0, 0⟩) ∧
      lookupFile "k"
        (FileCache.get ⟨1, [("k", ⟨0, some (PyVal.int 7)⟩)], 0, 0, 0, 0⟩ "k" 2).2.files =
        Option.none) ∧
    FileCache.get ⟨1, [("k", ⟨0, some (PyVal.int 7)⟩)], 0, 0, 0, 0⟩ "k" 1 =
      (PyVal.int 7, ⟨1, [("k", ⟨0, some (PyVal.int 7)⟩)], 1, 0, 0, 0⟩) := by
  refine ⟨⟨by decide, (claim_C8_disk_ttl _ "z" 2).1 (by decide)⟩, ?_, ?_⟩
  · have h := (claim_C8_disk_ttl ⟨1, [("k", ⟨0, some (PyVal.int 7)⟩)], 0, 0, 0, 0⟩ "k" 2).2.1
      ⟨0, some (PyVal.int 7)⟩ (by decide) (by decide)
    exact ⟨by decide, h.1, h.2⟩
  · exact (claim_C8_disk_ttl _ "k" 1).2.2 ⟨0, some (PyVal.int 7)⟩ (PyVal.int 7)
      (by decide) (by decide) (by decide)

/-- C2 counterexample: `LRUCache.__init__` with `max_size = 0` does not
fail — it returns a concrete cache object whose reads then work normally,
refuting rejected-at-construction. -/
theorem claim_C2_counterexample :
    LRUCache.init 0 = ⟨0, [], 0, 0, 0⟩ ∧
    ((LRUCache.init 0).get "k").1 = PyVal.none ∧
    ((LRUCache.init 0).get "k").2.misses = 1 ∧
    ((LRUCache.init 0).delete "k").1 = false := by
  refine ⟨rfl, ?_, ?_, ?_⟩ <;> decide

/-- C2 amended: `LRUCache.__init__` performs no capacity validation — for
every `max_size ≤ 0` construction succeeds, returning an empty cache
object; the misconfiguration surfaces only at runtime, when the first
`set` of a new key raises `KeyError` from `popitem` on the empty dict. -/
theorem claim_C2_no_construction_check (z : Int) (h : z ≤ 0)
    (key : String) (v : PyVal) :
    (LRUCache.init z).max_size = z ∧ (LRUCache.init z).cache = [] ∧
    (LRUCache.init z).set key v = Option.none := by
  refine ⟨rfl, rfl, ?_⟩
  unfold LRUCache.set LRUCache.init
  rw [if_neg (by simp [lookupKey]), if_pos (by simp; omega)]

/-- C2 witness: the amended claim at `max_size = -1`. -/
theorem claim_C2_witness :
    (-1 : Int) ≤ 0 ∧
    ((LRUCache.init (-1)).max_size = -1 ∧ (LRUCache.init (-1)).cache = [] ∧
      (LRUCache.init (-1)).set "k" (PyVal.int 7) = Option.none) :=
  ⟨by decide, claim_C2_no_construction_check (-1) (by decide) "k" (PyVal.int 7)⟩

/-- C1: code-bug witness. On a registry whose memory-backed instances each
hold one entry and whose file caches hold one and zero files,
`clear_all_caches` returns the size counts but leaves `memory_cache` and
`config_cache` untouched — their entries survive, contradicting the
documented clear-all behaviour — while the two file caches are cleared. -/
theorem claim_C1_clear_all_caches_bug :
    CacheManager.clear_all_caches
      ⟨⟨1000, [("k", PyVal.int 1)], 0, 0, 0⟩,
       ⟨3600, [("f", ⟨0, some (PyVal.int 2)⟩)], 0, 0, 0, 0⟩,
       FileCache.init (24 * 3600),
       ⟨100, [("c", PyVal.int 3)], 0, 0, 0⟩⟩ =
    (⟨1, 1, 0, 1⟩,
     ⟨⟨1000, [("k", PyVal.int 1)], 0, 0, 0⟩,
      ⟨3600, [], 0, 0, 0, 1⟩,
      ⟨24 * 3600, [], 0, 0, 0, 0⟩,
      ⟨100, [("c", PyVal.int 3)], 0, 0, 0⟩⟩) := rfl

/-- C6: a memory-tier hit moves the entry to the most-recently-used
position (tail of the recency order) and a miss leaves the stored entries
and their recency untouched; hence with capacity 2 the sequence set(a,1),
set(b,2), get(a), set(c,3) evicts b and not a. -/
theorem claim_C6_recency (c : LRUCache) (key : String) (v : PyVal) :
    (lookupKey key c.cache = some v →
      c.get key = (v, { c with cache := removeKey key c.cache ++ [(key, v)],
                               hits := c.hits + 1 })) ∧
    (lookupKey key c.cache = Option.none →
      c.get key = (PyVal.none, { c with misses := c.misses + 1 })) ∧
    (LRUCache.runOps (LRUCache.init 2)
        [LRUOp.set "a" (PyVal.int 1), LRUOp.set "b" (PyVal.int 2),
         LRUOp.get "a", LRUOp.set "c" (PyVal.int 3)] =
      some ⟨2, [("a", PyVal.int 1), ("c", PyVal.int 3)], 1, 0, 1⟩ ∧
     ((⟨2, [("a", PyVal.int 1), ("c", PyVal.int 3)], 1, 0, 1⟩ : LRUCache).get "a").1 = PyVal.int 1 ∧
     ((⟨2, [("a", PyVal.int 1), ("c", PyVal.int 3)], 1, 0, 1⟩ : LRUCache).get "c").1 = PyVal.int 3 ∧
     ((⟨2, [("a", PyVal.int 1), ("c", PyVal.int 3)], 1, 0, 1⟩ : LRUCache).get "b").1 = PyVal.none ∧
     lookupKey "b" [("a", PyVal.int 1), ("c", PyVal.int 3)] = Option.none) :=
  ⟨fun h => LRUCache.get_hit h, fun h => LRUCache.get_miss h, by decide⟩

/-- C6 witness: the hit branch at a two-entry cache (the hit entry moves
to the tail) and the miss branch at a one-entry cache (state untouched
except the miss counter). -/
theorem claim_C6_recency_witness :
    (lookupKey "x" [("x", PyVal.int 5), ("y", PyVal.int 6)] = some (PyVal.int 5) ∧
      LRUCache.get ⟨2, [("x", PyVal.int 5), ("y", PyVal.int 6)], 0, 0, 0⟩ "x" =
        (PyVal.int 5, ⟨2, [("y", PyVal.int 6), ("x", PyVal.int 5)], 1, 0, 0⟩)) ∧
    (lookupKey "z" [("x", PyVal.int 5)] = Option.none ∧
      LRUCache.get ⟨2, [("x", PyVal.int 5)], 0, 0, 0⟩ "z" =
        (PyVal.none, ⟨2, [("x", PyVal.int 5)], 0, 1, 0⟩)) :=
  ⟨⟨by decide,
    (claim_C6_recency ⟨2, [("x", PyVal.int 5), ("y", PyVal.int 6)], 0, 0, 0⟩
      "x" (PyVal.int 5)).1 (by decide)⟩,
   ⟨by decide,
    (claim_C6_recency ⟨2, [("x", PyVal.int 5)], 0, 0, 0⟩ "z" PyVal.none).2.1
      (by decide)⟩⟩

/-- C3: best-effort write-through. For every state, key and value, and
whatever the outcome of the disk write, `QueryCache.set` returns normally
(no exception reaches the caller) and the memory tier afterwards holds the
value; the only proviso is a well-configured (positive-capacity) memory
tier. -/
theorem claim_C3_best_effort_set (qc : QueryCache) (query params : String)
    (v : PyVal) (now : Nat) (ioFail : Bool)
    (h : 0 < qc.memory_cache.max_size) :
    ∃ qc₂, qc.set query params v now ioFail = some qc₂ ∧
      (qc₂.memory_cache.get (QueryCache.generate_cache_key query params)).1 = v := by
  cases hset : qc.memory_cache.set (QueryCache.generate_cache_key query params) v with
  | none =>
      have hs := @LRUCache.set_isSome qc.memory_cache
        (QueryCache.generate_cache_key query params) v h
      rw [hset] at hs
      exact absurd hs (by simp)
  | some m₂ =>
      refine ⟨{ qc with memory_cache := m₂, file_cache := (qc.file_cache.set (QueryCache.generate_cache_key query params) v now ioFail).2, stores := qc.stores + 1 }, ?_, LRUCache.set_then_get hset⟩
      simp only [QueryCache.set, hset]

/-- C3 witness: a fresh orchestrator over a capacity-2 memory tier, with
the disk write failing (`ioFail = true`). -/
theorem claim_C3_witness :
    0 < (QueryCache.init (LRUCache.init 2) (FileCache.init 3600)).memory_cache.max_size ∧
    ∃ qc₂, (QueryCache.init (LRUCache.init 2) (FileCache.init 3600)).set
        "q" "p" (PyVal.int 9) 0 true = some qc₂ ∧
      (qc₂.memory_cache.get (QueryCache.generate_cache_key "q" "p")).1 = PyVal.int 9 :=
  ⟨by decide,
   claim_C3_best_effort_set (QueryCache.init (LRUCache.init 2) (FileCache.init 3600))
     "q" "p" (PyVal.int 9) 0 true (by decide)⟩

/-- C4: read-through promotion. When the derived key misses in the memory
tier but the disk tier holds a fresh, deserializable, non-`None` value,
`QueryCache.get` returns that value, counts a file hit (memory hits and
misses unchanged), and writes the value into the memory tier, so a
subsequent memory-tier get alone returns it. -/
theorem claim_C4_promotion (qc : QueryCache) (query params : String)
    (now : Nat) (f : DiskFile) (v : PyVal)
    (hmem : lookupKey (QueryCache.generate_cache_key query params)
      qc.memory_cache.cache = Option.none)
    (hfile : lookupFile (QueryCache.generate_cache_key query params)
      qc.file_cache.files = some f)
    (hfresh : ¬ ((now : Int) - (f.mtime : Int) > qc.file_cache.max_age_seconds))
    (hcontent : f.content = some v)
    (hv : v ≠ PyVal.none)
    (hcap : 0 < qc.memory_cache.max_size) :
    ∃ qc₂, qc.get query params now = some (v, qc₂) ∧
      qc₂.file_hits = qc.file_hits + 1 ∧
      qc₂.memory_hits = qc.memory_hits ∧ qc₂.misses = qc.misses ∧
      (qc₂.memory_cache.get (QueryCache.generate_cache_key query params)).1 = v := by
  have hmget : qc.memory_cache.get (QueryCache.generate_cache_key query params) =
      (PyVal.none, { qc.memory_cache with misses := qc.memory_cache.misses + 1 }) :=
    LRUCache.get_miss hmem
  have hfget : qc.file_cache.get (QueryCache.generate_cache_key query params) now =
      (v, { qc.file_cache with hits := qc.file_cache.hits + 1 }) := by
    simp [FileCache.get, hfile, hfresh, hcontent]
  have hcap₂ : 0 < ({ qc.memory_cache with misses := qc.memory_cache.misses + 1 } : LRUCache).max_size := hcap
  cases hset : ({ qc.memory_cache with misses := qc.memory_cache.misses + 1 } : LRUCache).set
      (QueryCache.generate_cache_key query params) v with
  | none =>
      have hs := LRUCache.set_isSome
        (QueryCache.generate_cache_key query params) v hcap₂
      rw [hset] at hs
      exact absurd hs (by simp)
  | some m₂ =>
      refine ⟨{ qc with memory_cache := m₂, file_cache := { qc.file_cache with hits := qc.file_cache.hits + 1 }, file_hits := qc.file_hits + 1 }, ?_, rfl, rfl, rfl, LRUCache.set_then_get hset⟩
      simp [QueryCache.get, hmget, hfget, hset, hv]

/-- C4 witness: empty memory tier of capacity 2, one fresh disk file under
the derived key holding 5, read at `now = 3` with max-age 10. -/
theorem claim_C4_witness :
    ∃ qc₂, QueryCache.get
        ⟨LRUCache.init 2, ⟨10, [("query:q:p", ⟨0, some (PyVal.int 5)⟩)], 0, 0, 0, 0⟩,
         0, 0, 0, 0⟩ "q" "p" 3 = some (PyVal.int 5, qc₂) ∧
      qc₂.file_hits = 0 + 1 ∧ qc₂.memory_hits = 0 ∧ qc₂.misses = 0 ∧
      (qc₂.memory_cache.get (QueryCache.generate_cache_key "q" "p")).1 = PyVal.int 5 :=
  claim_C4_promotion
    ⟨LRUCache.init 2, ⟨10, [("query:q:p", ⟨0, some (PyVal.int 5)⟩)], 0, 0, 0, 0⟩,
     0, 0, 0, 0⟩ "q" "p" 3 ⟨0, some (PyVal.int 5)⟩ (PyVal.int 5)
    (by decide) (by decide) (by decide) (by decide) (by decide) (by decide)

/-- C10: a stored value of `None` is indistinguishable from absence at
every public get interface. A memory entry holding `None` is returned as
`None`; a fresh disk file whose pickled content is `None` is returned as
`None`; when both tiers hold `None` under the derived key,
`QueryCache.get` returns `None` and counts a miss (memory and file hit
counters of the orchestrator unchanged) although the entry is physically
present; and when only the disk holds `None`, the value is never promoted
into the memory tier, whose stored entries stay unchanged. -/
theorem claim_C10_stored_none (qc : QueryCache) (query params : String)
    (now : Nat) (f : DiskFile) :
    (∀ (c : LRUCache) (key : String),
      lookupKey key c.cache = some PyVal.none →
      (c.get key).1 = PyVal.none) ∧
    (∀ (fc : FileCache) (key : String),
      lookupFile key fc.files = some f →
      ¬ ((now : Int) - (f.mtime : Int) > fc.max_age_seconds) →
      f.content = some PyVal.none →
      (fc.get key now).1 = PyVal.none) ∧
    (lookupKey (QueryCache.generate_cache_key query params)
        qc.memory_cache.cache = some PyVal.none →
      lookupFile (QueryCache.generate_cache_key query params)
        qc.file_cache.files = some f →
      ¬ ((now : Int) - (f.mtime : Int) > qc.file_cache.max_age_seconds) →
      f.content = some PyVal.none →
      ∃ qc₂, qc.get query params now = some (PyVal.none, qc₂) ∧
        qc₂.misses = qc.misses + 1 ∧
        qc₂.memory_hits = qc.memory_hits ∧ qc₂.file_hits = qc.file_hits) ∧
    (lookupKey (QueryCache.generate_cache_key query params)
        qc.memory_cache.cache = Option.none →
      lookupFile (QueryCache.generate_cache_key query params)
        qc.file_cache.files = some f →
      ¬ ((now : Int) - (f.mtime : Int) > qc.file_cache.max_age_seconds) →
      f.content = some PyVal.none →
      ∃ qc₂, qc.get query params now = some (PyVal.none, qc₂) ∧
        qc₂.misses = qc.misses + 1 ∧
        qc₂.memory_cache.cache = qc.memory_cache.cache) := by
  refine ⟨?_, ?_, ?_, ?_⟩
  · intro c key h
    rw [LRUCache.get_hit h]
  · intro fc key hf hfresh hcontent
    simp [FileCache.get, hf, hfresh, hcontent]
  · intro hmem hfile hfresh hcontent
    have hmget := LRUCache.get_hit hmem
    have hfget : qc.file_cache.get (QueryCache.generate_cache_key query params) now =
        (PyVal.none, { qc.file_cache with hits := qc.file_cache.hits + 1 }) := by
      simp [FileCache.get, hfile, hfresh, hcontent]
    refine ⟨{ qc with memory_cache := { qc.memory_cache with cache := removeKey (QueryCache.generate_cache_key query params) qc.memory_cache.cache ++ [(QueryCache.generate_cache_key query params, PyVal.none)], hits := qc.memory_cache.hits + 1 }, file_cache := { qc.file_cache with hits := qc.file_cache.hits + 1 }, misses := qc.misses + 1 }, ?_, rfl, rfl, rfl⟩
    simp [QueryCache.get, hmget, hfget]
  · intro hmem hfile hfresh hcontent
    have hmget := LRUCache.get_miss hmem
    have hfget : qc.file_cache.get (QueryCache.generate_cache_key query params) now =
        (PyVal.none, { qc.file_cache with hits := qc.file_cache.hits + 1 }) := by
      simp [FileCache.get, hfile, hfresh, hcontent]
    refine ⟨{ qc with memory_cache := { qc.memory_cache with misses := qc.memory_cache.misses + 1 }, file_cache := { qc.file_cache with hits := qc.file_cache.hits + 1 }, misses := qc.misses + 1 }, ?_, rfl, rfl⟩
    simp [QueryCache.get, hmget, hfget]

/-- C10 witness: both tiers hold `None` under the key derived from
("q","p"); the orchestrator returns `None` and counts a miss; with the
memory tier empty instead, nothing is promoted. -/
theorem claim_C10_witness :
    (lookupKey "q0" [("q0", PyVal.none)] = some PyVal.none ∧
      (LRUCache.get ⟨4, [("q0", PyVal.none)], 0, 0, 0⟩ "q0").1 = PyVal.none) ∧
    ((FileCache.get ⟨9, [("query:q:p", ⟨0, some PyVal.none⟩)], 0, 0, 0, 0⟩ "query:q:p" 1).1 = PyVal.none) ∧
    (∃ qc₂, QueryCache.get ⟨⟨4, [("query:q:p", PyVal.none)], 0, 0, 0⟩, ⟨9, [("query:q:p", ⟨0, some PyVal.none⟩)], 0, 0, 0, 0⟩, 0, 0, 0, 0⟩ "q" "p" 1 = some (PyVal.none, qc₂) ∧
      qc₂.misses = 0 + 1 ∧ qc₂.memory_hits = 0 ∧ qc₂.file_hits = 0) ∧
    (∃ qc₂, QueryCache.get ⟨LRUCache.init 4, ⟨9, [("query:q:p", ⟨0, some PyVal.none⟩)], 0, 0, 0, 0⟩, 0, 0, 0, 0⟩ "q" "p" 1 = some (PyVal.none, qc₂) ∧
      qc₂.misses = 0 + 1 ∧ qc₂.memory_cache.cache = (LRUCache.init 4).cache) := by
  refine ⟨⟨by decide, ?_⟩, ?_, ?_, ?_⟩
  · exact (claim_C10_stored_none ⟨LRUCache.init 1, FileCache.init 1, 0, 0, 0, 0⟩
      "q" "p" 1 ⟨0, some PyVal.none⟩).1 ⟨4, [("q0", PyVal.none)], 0, 0, 0⟩ "q0" (by decide)
  · exact (claim_C10_stored_none ⟨LRUCache.init 1, FileCache.init 1, 0, 0, 0, 0⟩
      "q" "p" 1 ⟨0, some PyVal.none⟩).2.1 ⟨9, [("query:q:p", ⟨0, some PyVal.none⟩)], 0, 0, 0, 0⟩
      "query:q:p" (by decide) (by decide) (by decide)
  · exact (claim_C10_stored_none
      ⟨⟨4, [("query:q:p", PyVal.none)], 0, 0, 0⟩, ⟨9, [("query:q:p", ⟨0, some PyVal.none⟩)], 0, 0, 0, 0⟩, 0, 0, 0, 0⟩
      "q" "p" 1 ⟨0, some PyVal.none⟩).2.2.1 (by decide) (by decide) (by decide) (by decide)
  · exact (claim_C10_stored_none
      ⟨LRUCache.init 4, ⟨9, [("query:q:p", ⟨0, some PyVal.none⟩)], 0, 0, 0, 0⟩, 0, 0, 0, 0⟩
      "q" "p" 1 ⟨0, some PyVal.none⟩).2.2.2 (by decide) (by decide) (by decide) (by decide)

/-- C5: LRU eviction and capacity bound. Inserting N+1 distinct keys into
a fresh capacity-N tier (N at least 1) with no intervening get evicts
exactly the first-inserted key, counting one eviction, and leaves the
remaining N pairs in insertion order; the number of stored entries never
exceeds N over any successful operation sequence; in particular with
capacity 2, set(a,1), set(b,2), set(c,3) makes a a miss while b and c
survive. -/
theorem claim_C5_eviction_capacity :
    (∀ (N : Nat) (kvs : List (String × PyVal)), 1 ≤ N →
      kvs.length = N + 1 → (kvs.map Prod.fst).Nodup →
      LRUCache.insertAll (LRUCache.init (N : Int)) kvs =
        some ⟨(N : Int), kvs.drop 1, 0, 0, 1⟩) ∧
    (∀ (N : Nat) (ops : List LRUOp) (c₂ : LRUCache), 1 ≤ N →
      LRUCache.runOps (LRUCache.init (N : Int)) ops = some c₂ →
      c₂.cache.length ≤ N) ∧
    (LRUCache.insertAll (LRUCache.init 2)
        [("a", PyVal.int 1), ("b", PyVal.int 2), ("c", PyVal.int 3)] =
      some ⟨2, [("b", PyVal.int 2), ("c", PyVal.int 3)], 0, 0, 1⟩ ∧
     lookupKey "a" [("b", PyVal.int 2), ("c", PyVal.int 3)] = Option.none ∧
     lookupKey "b" [("b", PyVal.int 2), ("c", PyVal.int 3)] = some (PyVal.int 2) ∧
     lookupKey "c" [("b", PyVal.int 2), ("c", PyVal.int 3)] = some (PyVal.int 3)) := by
  refine ⟨?_, ?_, by decide⟩
  · intro N kvs hN hlen hnd
    have hdropN : (kvs.drop N).length = 1 := by
      rw [List.length_drop, hlen]
      omega
    obtain ⟨p, hp⟩ := List.length_eq_one.mp hdropN
    obtain ⟨k, v⟩ := p
    have hsplit : kvs = kvs.take N ++ [(k, v)] := by
      conv_lhs => rw [← List.take_append_drop N kvs]
      rw [hp]
    have htake : (kvs.take N).length = N := by
      rw [List.length_take, hlen]
      omega
    have hnd₁ : ((((LRUCache.init (N : Int)).cache) ++ kvs.take N).map Prod.fst).Nodup := by
      simp only [LRUCache.init, List.nil_append]
      exact ((List.take_sublist N kvs).map Prod.fst).nodup hnd
    have hlen₁ : ((LRUCache.init (N : Int)).cache.length : Int) + (kvs.take N).length ≤
        (LRUCache.init (N : Int)).max_size := by
      simp [LRUCache.init, htake]
    have hfill := LRUCache.insertAll_fresh (kvs.take N) (LRUCache.init (N : Int)) hnd₁ hlen₁
    have hmid : LRUCache.insertAll (LRUCache.init (N : Int)) (kvs.take N ++ [(k, v)]) =
        LRUCache.insertAll { LRUCache.init (N : Int) with cache := (LRUCache.init (N : Int)).cache ++ kvs.take N } [(k, v)] := by
      rw [LRUCache.insertAll_append, hfill]
    obtain ⟨hd, tl, htl⟩ : ∃ hd tl, kvs.take N = hd :: tl := by
      cases hc : kvs.take N with
      | nil => rw [hc] at htake; simp at htake; omega
      | cons hd tl => exact ⟨hd, tl, rfl⟩
    have hkfresh : k ∉ (kvs.take N).map Prod.fst := by
      rw [hsplit, List.map_append, List.nodup_append] at hnd
      intro hmem
      exact absurd (by simp) (hnd.2.2 hmem)
    have hknone : lookupKey k (({ LRUCache.init (N : Int) with cache := (LRUCache.init (N : Int)).cache ++ kvs.take N } : LRUCache).cache) = Option.none := by
      simp only [LRUCache.init, List.nil_append]
      exact lookupKey_eq_none_iff.mpr hkfresh
    have hfull : ((({ LRUCache.init (N : Int) with cache := (LRUCache.init (N : Int)).cache ++ kvs.take N } : LRUCache).cache.length : Int)) ≥
        ({ LRUCache.init (N : Int) with cache := (LRUCache.init (N : Int)).cache ++ kvs.take N } : LRUCache).max_size := by
      simp [LRUCache.init, htake]
    have hc : ({ LRUCache.init (N : Int) with cache := (LRUCache.init (N : Int)).cache ++ kvs.take N } : LRUCache).cache = hd :: tl := by
      simp [LRUCache.init, htl]
    have hsetfin := LRUCache.set_fresh_full v hknone hfull hc
    have hdrop1 : (kvs.take N ++ [(k, v)]).drop 1 = tl ++ [(k, v)] := by
      simp [htl]
    rw [hsplit, hmid, LRUCache.insertAll_cons_some hsetfin, hdrop1]
    simp [LRUCache.insertAll, LRUCache.init]
  · intro N ops c₂ hN hrun
    have hwf : (LRUCache.init (N : Int)).WF := by
      constructor
      · exact List.nodup_nil
      · simp [LRUCache.init]
    obtain ⟨⟨hnd₂, hlen₂⟩, hmax₂⟩ :=
      LRUCache.WF_runOps ops (LRUCache.init (N : Int)) c₂ hwf hrun
    rw [hmax₂] at hlen₂
    simp only [LRUCache.init] at hlen₂
    exact_mod_cast hlen₂

/-- C5 witness: capacity 1 with keys a then b (a is evicted, one eviction
counted), and the capacity bound after one insertion. -/
theorem claim_C5_witness :
    (1 ≤ 1 ∧
     ([("a", PyVal.int 1), ("b", PyVal.int 2)] : List (String × PyVal)).length = 1 + 1 ∧
     (([("a", PyVal.int 1), ("b", PyVal.int 2)] : List (String × PyVal)).map Prod.fst).Nodup ∧
     LRUCache.insertAll (LRUCache.init ((1 : Nat) : Int))
       [("a", PyVal.int 1), ("b", PyVal.int 2)] =
       some ⟨((1 : Nat) : Int), [("b", PyVal.int 2)], 0, 0, 1⟩) ∧
    (LRUCache.runOps (LRUCache.init ((1 : Nat) : Int)) [LRUOp.set "a" (PyVal.int 1)] =
       some ⟨((1 : Nat) : Int), [("a", PyVal.int 1)], 0, 0, 0⟩ ∧
     (⟨((1 : Nat) : Int), [("a", PyVal.int 1)], 0, 0, 0⟩ : LRUCache).cache.length ≤ 1) := by
  refine ⟨⟨by decide, by decide, by decide, ?_⟩, by decide, ?_⟩
  · exact claim_C5_eviction_capacity.1 1 [("a", PyVal.int 1), ("b", PyVal.int 2)]
      (by decide) (by decide) (by decide)
  · exact claim_C5_eviction_capacity.2.1 1 [LRUOp.set "a" (PyVal.int 1)]
      ⟨((1 : Nat) : Int), [("a", PyVal.int 1)], 0, 0, 0⟩ (by decide) (by decide)

/-- C7: stats invariant. From construction (counters at zero, no reset
existing), after any successful operation sequence a memory tier satisfies
hits + misses = number of get calls, a disk tier satisfies the same, and
the orchestrator satisfies memory_hits + file_hits + misses = number of
get calls. -/
theorem claim_C7_stats_invariant :
    (∀ (ms : Int) (ops : List LRUOp) (c₂ : LRUCache),
      (LRUCache.init ms).runOps ops = some c₂ →
      c₂.hits + c₂.misses = countGets ops) ∧
    (∀ (ma : Int) (ops : List FileOp),
      ((FileCache.init ma).runOps ops).hits +
        ((FileCache.init ma).runOps ops).misses = countFileGets ops) ∧
    (∀ (m : LRUCache) (f : FileCache) (ops : List QOp) (qc₂ : QueryCache),
      (QueryCache.init m f).runOps ops = some qc₂ →
      qc₂.memory_hits + qc₂.file_hits + qc₂.misses = countQGets ops) := by
  refine ⟨?_, ?_, ?_⟩
  · intro ms ops c₂ h
    simpa [LRUCache.init] using LRUCache.runOps_tally ops (LRUCache.init ms) c₂ h
  · intro ma ops
    simpa [FileCache.init] using FileCache.file_runOps_tally ops (FileCache.init ma)
  · intro m f ops qc₂ h
    simpa [QueryCache.init] using QueryCache.query_runOps_tally ops (QueryCache.init m f) qc₂ h

/-- C7 witness: miss-set-hit on a fresh memory tier (2 gets, 1 hit and 1
miss), a single miss on a fresh disk tier, and one orchestrator miss. -/
theorem claim_C7_witness :
    (LRUCache.runOps (LRUCache.init 5)
        [LRUOp.get "a", LRUOp.set "a" (PyVal.int 1), LRUOp.get "a"] =
      some ⟨5, [("a", PyVal.int 1)], 1, 1, 0⟩ ∧
     (⟨5, [("a", PyVal.int 1)], 1, 1, 0⟩ : LRUCache).hits +
       (⟨5, [("a", PyVal.int 1)], 1, 1, 0⟩ : LRUCache).misses =
       countGets [LRUOp.get "a", LRUOp.set "a" (PyVal.int 1), LRUOp.get "a"]) ∧
    (((FileCache.init 9).runOps [FileOp.get "k" 0]).hits +
       ((FileCache.init 9).runOps [FileOp.get "k" 0]).misses =
       countFileGets [FileOp.get "k" 0]) ∧
    ((QueryCache.init (LRUCache.init 5) (FileCache.init 9)).runOps [QOp.get "q" "p" 0] =
      some ⟨⟨5, [], 0, 1, 0⟩, ⟨9, [], 0, 1, 0, 0⟩, 0, 0, 1, 0⟩ ∧
     (⟨⟨5, [], 0, 1, 0⟩, ⟨9, [], 0, 1, 0, 0⟩, 0, 0, 1, 0⟩ : QueryCache).memory_hits +
       (⟨⟨5, [], 0, 1, 0⟩, ⟨9, [], 0, 1, 0, 0⟩, 0, 0, 1, 0⟩ : QueryCache).file_hits +
       (⟨⟨5, [], 0, 1, 0⟩, ⟨9, [], 0, 1, 0, 0⟩, 0, 0, 1, 0⟩ : QueryCache).misses =
       countQGets [QOp.get "q" "p" 0]) :=
  ⟨⟨by decide,
    claim_C7_stats_invariant.1 5
      [LRUOp.get "a", LRUOp.set "a" (PyVal.int 1), LRUOp.get "a"]
      ⟨5, [("a", PyVal.int 1)], 1, 1, 0⟩ (by decide)⟩,
   claim_C7_stats_invariant.2.1 9 [FileOp.get "k" 0],
   ⟨by decide,
    claim_C7_stats_invariant.2.2 (LRUCache.init 5) (FileCache.init 9)
      [QOp.get "q" "p" 0]
      ⟨⟨5, [], 0, 1, 0⟩, ⟨9, [], 0, 1, 0, 0⟩, 0, 0, 1, 0⟩ (by decide)⟩⟩
